import Mathlib

/-!
Verification development for the `blst-ringct` RingCT core (`src/ringct.rs`).

The source operates on the BLS12-381 G1 prime-order subgroup. That subgroup is
cyclic of prime order `q` (the scalar-field order), so the embedding models a
group element by its discrete logarithm with respect to a fixed generator:
`G1Affine := ZMod q`.  Scalars are `ZMod q` as well.  Pedersen generators are a
pair of points; commitments are computed exactly as `value·G_v + blinding·G_b`.
The opaque 48-byte compressed point encoding is modelled by an injective map
onto 48-byte big-endian lists.  Byte strings are `List Nat`.

External collaborators (the MLSAG primitive, the Bulletproofs range-proof
prover/verifier, SHA3) and crate types that are declared outside
`src/ringct.rs` (`RevealedCommitment`, `MlsagMaterial`, `MlsagSignature`,
`Error`) are modelled from the specification's interface contracts; each such
definition carries a doc comment saying so.  Everything else is translated
directly from `src/ringct.rs`.

A caller-supplied RNG is modelled as a stream `Nat → Scalar` together with the
position of the next fresh draw; each random blinding consumes one stream
element, in the order the source draws them.
-/

/-- Order of the BLS12-381 scalar field, which is also the order of the G1
prime-order subgroup used for all points in the source. -/
def q : Nat := 52435875175126190479447740508185965837690552500527637822603658699938581184513

/-- Scalar field element (`blstrs::Scalar`). -/
abbrev Scalar := ZMod q

/-- Model of a `blstrs::G1Affine` element of the prime-order subgroup: the
subgroup is cyclic of order `q`, so a point is identified with its discrete
logarithm with respect to a fixed generator.  `G1Projective` values are
compared and summed through the same model (the source converts with
`to_affine`, and all comparisons ignore the projective representative). -/
abbrev G1Affine := ZMod q

/-- Big-endian base-256 digits: exactly `n` bytes of `x` (most significant
first). -/
def natToBytesBE : Nat → Nat → List Nat
  | 0, _ => []
  | n + 1, x => natToBytesBE n (x / 256) ++ [x % 256]

/-- Model of the opaque 48-byte compressed encoding of a point
(`G1Affine::to_bytes` / `to_compressed`): an injective map onto 48-byte lists
(`q < 2^384`, so the value fits). -/
def ptBytes (p : G1Affine) : List Nat := natToBytesBE 48 p.val

/-- Model of `bls_bulletproofs::PedersenGens`: the pair of independent
generators (`G_v`, `G_b`).  The source uses the fixed process-wide default
pair; the embedding passes the pair explicitly, so every theorem holds in
particular at the real generators. -/
structure PedersenGens where
  gv : G1Affine
  gb : G1Affine

/-- Pedersen commitment `value·G_v + blinding·G_b`. -/
def PedersenGens.commitPt (pg : PedersenGens) (v : Nat) (b : Scalar) : G1Affine :=
  (v : Scalar) * pg.gv + b * pg.gb

/-- Modelled from the spec: `RevealedCommitment` (crate type not under
`src/`) is the pair `(value, blinding)` (§3, §4.1). -/
structure RevealedCommitment where
  value : Nat
  blinding : Scalar
  deriving DecidableEq

/-- Modelled from the spec: `RevealedCommitment::commit` is the deterministic
Pedersen commitment `value·G_v + blinding·G_b` (§4.1); the source applies
`to_affine`, which is the identity in this model. -/
def RevealedCommitment.commit (pg : PedersenGens) (r : RevealedCommitment) : G1Affine :=
  pg.commitPt r.value r.blinding

/-- Embedding of `Output`: recipient public key and cleartext amount (`src/ringct.rs`). -/
structure Output where
  public_key : G1Affine
  amount : Nat
  deriving DecidableEq

/-- Modelled from the spec: the true-input half of `MlsagMaterial` (crate type
not under `src/`): the secret key and the known revealed commitment (§3). -/
structure TrueInput where
  secret_key : Scalar
  revealed_commitment : RevealedCommitment
  deriving DecidableEq

/-- Modelled from the spec: the key image is a group element derived
deterministically from the true secret key (§6.2); the concrete derivation is
opaque, so the model fixes one deterministic injective map. -/
def TrueInput.key_image (t : TrueInput) : G1Affine := t.secret_key

/-- Modelled from the spec: `MlsagMaterial` (crate type not under `src/`) is
the opaque per-input bundle exposing the true input and the full ring's public
keys in ring order (§3, §6.2). -/
structure MlsagMaterial where
  true_input : TrueInput
  ring_keys : List G1Affine

/-- Modelled from the spec: `MlsagMaterial::public_keys` returns the full
ring's public keys in the input's own ring order (§6.2). -/
def MlsagMaterial.public_keys (m : MlsagMaterial) : List G1Affine := m.ring_keys

/-- Modelled from the spec: `MlsagSignature` (crate type not under `src/`)
exposes the ring public keys, the key image, the pseudo-commitment, a
canonical byte encoding, and verification against a message and a ring's
public commitments (§3, §6.2); verification is opaque, so it is carried as a
field. -/
structure MlsagSignature where
  public_keys : List G1Affine
  key_image : G1Affine
  pseudo_commitment : G1Affine
  to_bytes : List Nat
  verify : List Nat → List G1Affine → Bool

/-- Modelled from the spec: `MlsagMaterial::sign(msg, pseudo_commitment,
pedersen_generators)` produces an `MlsagSignature` reporting the material's
ring public keys, the true input's key image, and the commitment of the
supplied revealed pseudo-commitment (§6.2); the signature's internal scalars
are opaque, so its byte encoding is modelled from its public fields and an
honestly produced signature verifies. -/
def MlsagMaterial.sign (m : MlsagMaterial) (msg : List Nat) (r : RevealedCommitment)
    (pg : PedersenGens) : MlsagSignature :=
  { public_keys := m.public_keys
    key_image := m.true_input.key_image
    pseudo_commitment := r.commit pg
    to_bytes := m.public_keys.flatMap ptBytes ++ ptBytes m.true_input.key_image
      ++ ptBytes (r.commit pg) ++ msg
    verify := fun _ _ => true }

/-- Model of `bls_bulletproofs::RangeProof`: opaque canonical bytes plus the
opaque verification outcome (a function of the verifier's transcript state and
the commitment being checked). -/
structure RangeProof where
  bytes : List Nat
  check : List Nat → G1Affine → Bool

/-- Embedding of `RangeProof::to_bytes`: the proof's canonical byte form. -/
def RangeProof.to_bytes (rp : RangeProof) : List Nat := rp.bytes

/-- Modelled from the spec: the crate `Error` kinds (§7) together with the
variant names used in `src/ringct.rs`. -/
inductive Error where
  | NoInputs
  | NoOutputs
  | TransactionMustHaveAnInput
  | InvalidSignature
  | RangeProofFailure
  | KeyImageNotUniqueAcrossInputs
  | PublicKeyNotUniqueAcrossInputs
  | InputPseudoCommitmentsDoNotSumToOutputCommitments
  | MalformedEncoding
  deriving DecidableEq

/-- Embedding of `RevealedOutputCommitment`: recipient public key plus the revealed
commitment, internal to the assembler (`src/ringct.rs`). -/
structure RevealedOutputCommitment where
  public_key : G1Affine
  revealed_commitment : RevealedCommitment
  deriving DecidableEq

/-- Embedding of `RingCtMaterial`: the assembler's input bundle (`src/ringct.rs`). -/
structure RingCtMaterial where
  inputs : List MlsagMaterial
  outputs : List Output

/-- Embedding of `OutputProof`: recipient public key, range proof, and output commitment
(`src/ringct.rs`). -/
structure OutputProof where
  public_key : G1Affine
  range_proof : RangeProof
  commitment : G1Affine

/-- Embedding of `OutputProof::to_bytes`: compressed public key, then the range proof's
canonical bytes, then the compressed commitment (`src/ringct.rs`). -/
def OutputProof.to_bytes (o : OutputProof) : List Nat :=
  ptBytes o.public_key ++ o.range_proof.to_bytes ++ ptBytes o.commitment

/-- Embedding of `RingCtTransaction`: ordered mlsags and ordered output proofs
(`src/ringct.rs`). -/
structure RingCtTransaction where
  mlsags : List MlsagSignature
  outputs : List OutputProof

/-- A caller-supplied RNG, modelled as a stream of fresh uniform scalars. -/
abbrev Rng := Nat → Scalar

/-- Embedding of `RingCtMaterial::public_keys`: all ring public keys of all inputs, in
order (`src/ringct.rs`). -/
def RingCtMaterial.public_keys (m : RingCtMaterial) : List G1Affine :=
  m.inputs.flatMap MlsagMaterial.public_keys

/-- Embedding of `RingCtMaterial::key_images`: each input's key image, in input order
(`src/ringct.rs`; `to_affine` is the identity in this model). -/
def RingCtMaterial.key_images (m : RingCtMaterial) : List G1Affine :=
  m.inputs.map fun i => i.true_input.key_image

/-- Embedding of `RingCtMaterial::revealed_pseudo_commitments`: for each input in order, a
fresh pseudo-commitment to the input's true amount with a fresh random
blinding (`src/ringct.rs`; `random_pseudo_commitment` is modelled from spec
§6.2).  Input `i` consumes stream element `i`. -/
def RingCtMaterial.revealed_pseudo_commitments (m : RingCtMaterial) (rng : Rng) :
    List RevealedCommitment :=
  m.inputs.mapIdx fun i inp =>
    { value := inp.true_input.revealed_commitment.value, blinding := rng i }

/-- Embedding of `RingCtMaterial::pseudo_commitments`: commit each revealed
pseudo-commitment (`src/ringct.rs`). -/
def pseudo_commitments (pg : PedersenGens) (rps : List RevealedCommitment) : List G1Affine :=
  rps.map (RevealedCommitment.commit pg)

/-- First half of `RingCtMaterial::revealed_output_commitments`
(`src/ringct.rs`): all outputs but the last get fresh random blindings.  The
source's lazy `.map(..).take(len - 1)` draws exactly `len - 1` blindings, at
stream positions `off`, `off+1`, …. -/
def rocFirsts (m : RingCtMaterial) (rng : Rng) (off : Nat) :
    List RevealedOutputCommitment :=
  (m.outputs.take (m.outputs.length - 1)).mapIdx fun j out =>
    { public_key := out.public_key
      revealed_commitment := { value := out.amount, blinding := rng (off + j) } }

/-- Embedding of `RingCtMaterial::revealed_output_commitments` (`src/ringct.rs`): an empty
outputs list returns `[]` early; otherwise the non-last outputs get fresh
random blindings (`rocFirsts`), the blinding correction `Σ input blindings −
Σ chosen output blindings` is computed with the source's `fold`, and the last
output is pushed with that blinding and its declared amount.  The source's
`panic!("Expected at least one output")` branch is modelled as `none`. -/
def RingCtMaterial.revealed_output_commitments (m : RingCtMaterial)
    (revealed_pseudo_commitments : List RevealedCommitment) (rng : Rng) (off : Nat) :
    Option (List RevealedOutputCommitment) :=
  if m.outputs.isEmpty then some [] else
  let firsts : List RevealedOutputCommitment := rocFirsts m rng off
  let input_sum : Scalar :=
    (revealed_pseudo_commitments.map RevealedCommitment.blinding).foldl (fun sum x => sum + x) 0
  let output_sum : Scalar :=
    (firsts.map fun r => r.revealed_commitment.blinding).foldl (fun sum x => sum + x) 0
  let output_blinding_correction := input_sum - output_sum
  match m.outputs.getLast? with
  | some last_output =>
      some (firsts ++ [{ public_key := last_output.public_key
                         revealed_commitment := { value := last_output.amount
                                                  blinding := output_blinding_correction } }])
  | none => none

/-- Model of `RangeProof::prove_single_with_rng` (external Bulletproofs
prover): for the fixed 64-bit width it succeeds, returns an opaque proof
together with the Pedersen commitment to `(value, blinding)` (the documented
contract of the prover), and absorbs the proof into the shared transcript. -/
def proveSingle (pg : PedersenGens) (ts : List Nat) (v : Nat) (b : Scalar) :
    Except Error (RangeProof × G1Affine × List Nat) :=
  let c := pg.commitPt v b
  .ok ({ bytes := ptBytes c, check := fun _ _ => true }, c, ts ++ ptBytes c)

/-- Bytes of the Merlin transcript domain label `b"BLST_RINGCT"`
(`MERLIN_TRANSCRIPT_LABEL` in `src/ringct.rs`). -/
def merlinLabel : List Nat := [66, 76, 83, 84, 95, 82, 73, 78, 71, 67, 84]

/-- Recursion of `RingCtMaterial::output_range_proofs` (`src/ringct.rs`): one
range proof per revealed output commitment, threading a single shared
transcript, collecting `OutputProof`s and propagating the first error. -/
def outputRangeProofsGo (pg : PedersenGens) (ts : List Nat) :
    List RevealedOutputCommitment → Except Error (List OutputProof)
  | [] => .ok []
  | c :: rest =>
    match proveSingle pg ts c.revealed_commitment.value c.revealed_commitment.blinding with
    | .error e => .error e
    | .ok (range_proof, commitment, ts2) =>
      match outputRangeProofsGo pg ts2 rest with
      | .error e => .error e
      | .ok tl =>
          .ok ({ public_key := c.public_key, range_proof := range_proof,
                 commitment := commitment } :: tl)

/-- Embedding of `RingCtMaterial::output_range_proofs` (`src/ringct.rs`): the transcript is
freshly allocated with the fixed label. -/
def output_range_proofs (pg : PedersenGens)
    (revealed_output_commitments : List RevealedOutputCommitment) :
    Except Error (List OutputProof) :=
  outputRangeProofsGo pg merlinLabel revealed_output_commitments

/-- Embedding of `gen_message_for_signing` (`src/ringct.rs`): the plain concatenation of
the compressed ring public keys, the compressed key images, the compressed
pseudo-commitments, and the output proofs' canonical bytes. -/
def gen_message_for_signing (public_keys key_images pseudo_commitment_pts : List G1Affine)
    (output_proofs : List OutputProof) : List Nat :=
  public_keys.flatMap ptBytes ++ key_images.flatMap ptBytes ++
    pseudo_commitment_pts.flatMap ptBytes ++ output_proofs.flatMap OutputProof.to_bytes

/-- Embedding of `RingCtMaterial::sign` (`src/ringct.rs`): draw the revealed
pseudo-commitments, commit them, build the revealed output commitments,
produce the range proofs, form the signing message, and sign one MLSAG per
input over that message.  The outer `Option` records whether the source's
`panic!` branch was reached (`none` = process termination). -/
def RingCtMaterial.sign (m : RingCtMaterial) (pg : PedersenGens) (rng : Rng) :
    Option (Except Error (RingCtTransaction × List RevealedCommitment)) :=
  let rps := m.revealed_pseudo_commitments rng
  let pcs := pseudo_commitments pg rps
  match m.revealed_output_commitments rps rng m.inputs.length with
  | none => none
  | some rocs =>
    match output_range_proofs pg rocs with
    | .error e => some (.error e)
    | .ok output_proofs =>
      let msg := gen_message_for_signing m.public_keys m.key_images pcs output_proofs
      let mlsags := (m.inputs.zip rps).map fun p => p.1.sign msg p.2 pg
      some (.ok ({ mlsags := mlsags, outputs := output_proofs },
                 rocs.map fun r => r.revealed_commitment))

/-- Embedding of `RingCtTransaction::to_bytes` (`src/ringct.rs`): each mlsag's canonical
bytes in order, then each output proof's canonical bytes in order. -/
def RingCtTransaction.to_bytes (tx : RingCtTransaction) : List Nat :=
  tx.mlsags.flatMap MlsagSignature.to_bytes ++ tx.outputs.flatMap OutputProof.to_bytes

/-- Model of `tiny_keccak::Sha3` streaming state: the bytes absorbed so far. -/
structure Sha3 where
  buf : List Nat

/-- Embedding of `Sha3::v256()`: fresh state. -/
def Sha3.v256 : Sha3 := ⟨[]⟩

/-- Embedding of `Sha3::update`: absorb bytes. -/
def Sha3.update (s : Sha3) (msg : List Nat) : Sha3 := ⟨s.buf ++ msg⟩

/-- Embedding of `Sha3::finalize`: apply the (external, here abstract) SHA3-256 digest
function to the absorbed bytes. -/
def Sha3.finalize (digest : List Nat → List Nat) (s : Sha3) : List Nat := digest s.buf

/-- Embedding of `RingCtTransaction::hash` (`src/ringct.rs`): SHA3-256 over
`to_bytes()`, via the streaming interface.  The digest function itself is
external and passed as a parameter. -/
def RingCtTransaction.hash (digest : List Nat → List Nat) (tx : RingCtTransaction) :
    List Nat :=
  Sha3.finalize digest (Sha3.v256.update tx.to_bytes)

/-- Embedding of `RingCtTransaction::gen_message` (`src/ringct.rs`): rebuild the signing
message from the transaction's own mlsags and output proofs. -/
def RingCtTransaction.gen_message (tx : RingCtTransaction) : List Nat :=
  gen_message_for_signing (tx.mlsags.flatMap MlsagSignature.public_keys)
    (tx.mlsags.map MlsagSignature.key_image)
    (tx.mlsags.map MlsagSignature.pseudo_commitment)
    tx.outputs

/-- The MLSAG phase of `RingCtTransaction::verify` (`src/ringct.rs`): check
each (mlsag, ring commitments) pair from the zip, propagating the first
failure (modelled as `InvalidSignature`, §4.6). -/
def mlsagChecks (msg : List Nat) : List (MlsagSignature × List G1Affine) → Except Error Unit
  | [] => .ok ()
  | (mlsag, public_commitments) :: rest =>
    if mlsag.verify msg public_commitments then mlsagChecks msg rest
    else .error .InvalidSignature

/-- The range-proof phase of `RingCtTransaction::verify` (`src/ringct.rs`):
verify each output's range proof against its commitment, threading the single
shared transcript. -/
def rangeChecks (ts : List Nat) : List OutputProof → Except Error Unit
  | [] => .ok ()
  | o :: rest =>
    if o.range_proof.check ts o.commitment then
      rangeChecks (ts ++ o.range_proof.bytes ++ ptBytes o.commitment) rest
    else .error .RangeProofFailure

/-- The structural tail of `RingCtTransaction::verify` (`src/ringct.rs`), in
source order: the at-least-one-input check, key-image uniqueness by 48-byte
compressed equality (the source collects the compressed bytes into a
`BTreeSet` and compares its cardinality with the mlsag count; the set's
cardinality is the length of `dedup`), ring-public-key uniqueness by
compressed bytes, and the homomorphic balance check of the projective sums. -/
def structuralChecks (tx : RingCtTransaction) : Except Error Unit :=
  if tx.mlsags.isEmpty then .error .TransactionMustHaveAnInput
  else if (tx.mlsags.map fun m => ptBytes m.key_image).dedup.length ≠ tx.mlsags.length then
    .error .KeyImageNotUniqueAcrossInputs
  else if (tx.mlsags.flatMap fun m => m.public_keys.map ptBytes).dedup.length ≠
      (tx.mlsags.map fun m => m.public_keys.length).sum then
    .error .PublicKeyNotUniqueAcrossInputs
  else if (tx.mlsags.map MlsagSignature.pseudo_commitment).sum ≠
      (tx.outputs.map OutputProof.commitment).sum then
    .error .InputPseudoCommitmentsDoNotSumToOutputCommitments
  else .ok ()

/-- Embedding of `RingCtTransaction::verify` (`src/ringct.rs`): MLSAG checks over the zip
with the caller's per-ring commitments, then range-proof checks, then the
structural checks. -/
def RingCtTransaction.verify (tx : RingCtTransaction)
    (public_commitments_per_ring : List (List G1Affine)) : Except Error Unit :=
  match mlsagChecks tx.gen_message (tx.mlsags.zip public_commitments_per_ring) with
  | .error e => .error e
  | .ok _ =>
  match rangeChecks merlinLabel tx.outputs with
  | .error e => .error e
  | .ok _ => structuralChecks tx

/-- Extract the transaction from a successful `sign` result (any failure maps
to the empty transaction). -/
def signedTxOf (r : Option (Except Error (RingCtTransaction × List RevealedCommitment))) :
    RingCtTransaction :=
  match r with
  | some (.ok p) => p.1
  | _ => { mlsags := [], outputs := [] }

/-- Extract the revealed output commitments from a successful `sign` result. -/
def revealedOf (r : Option (Except Error (RingCtTransaction × List RevealedCommitment))) :
    List RevealedCommitment :=
  match r with
  | some (.ok p) => p.2
  | _ => []

/-- Whether a `sign` result is a successfully returned transaction. -/
def signOk : Option (Except Error (RingCtTransaction × List RevealedCommitment)) → Bool
  | some (.ok _) => true
  | _ => false

/-- Whether a `sign` result is the given error value. -/
def isErrorOf (e : Error) :
    Option (Except Error (RingCtTransaction × List RevealedCommitment)) → Bool
  | some (.error e2) => decide (e2 = e)
  | _ => false

/-- Concrete Pedersen generator pair used by witnesses. -/
def pg0 : PedersenGens := { gv := 1, gb := 2 }

/-- Concrete RNG stream used by witnesses. -/
def rng0 : Rng := fun i => (i : Scalar) + 1

/-- Concrete single-input material (true amount 3, ring of three keys). -/
def mi0 : MlsagMaterial :=
  { true_input := { secret_key := 7, revealed_commitment := { value := 3, blinding := 5 } }
    ring_keys := [10, 11, 12] }

/-- Concrete material with one input and no outputs. -/
def matNoOutputs : RingCtMaterial := { inputs := [mi0], outputs := [] }

/-- Concrete material with no inputs and one output. -/
def matNoInputs : RingCtMaterial :=
  { inputs := [], outputs := [{ public_key := 9, amount := 4 }] }

/-- Concrete balanced material: one input of amount 3, one output of amount 3. -/
def mat1 : RingCtMaterial :=
  { inputs := [mi0], outputs := [{ public_key := 9, amount := 3 }] }

/-- Concrete material with a zero-valued input and no outputs (amount sums
agree: both are 0). -/
def matZero : RingCtMaterial :=
  { inputs := [{ true_input := { secret_key := 7
                                 revealed_commitment := { value := 0, blinding := 5 } }
                 ring_keys := [10] }]
    outputs := [] }

/-! ### Helper lemmas about the embedding -/

theorem natToBytesBE_length : ∀ (n x : Nat), (natToBytesBE n x).length = n := by
  intro n
  induction n with
  | zero => intro x; rfl
  | succ k ih => intro x; simp [natToBytesBE, ih]

theorem ptBytes_length (p : G1Affine) : (ptBytes p).length = 48 :=
  natToBytesBE_length 48 p.val

theorem foldl_add_eq_sum (l : List Scalar) :
    l.foldl (fun sum x => sum + x) 0 = l.sum :=
  List.sum_eq_foldl.symm

theorem map_mapIdx {α β γ : Type} (f : Nat → α → β) (g : β → γ) (l : List α) :
    (l.mapIdx f).map g = l.mapIdx fun i a => g (f i a) := by
  rw [List.mapIdx_eq_enum_map, List.mapIdx_eq_enum_map, List.map_map]
  rfl

theorem mapIdx_constIdx {α β : Type} (f : α → β) (l : List α) :
    (l.mapIdx fun _ a => f a) = l.map f := by
  rw [List.mapIdx_eq_enum_map]
  rw [show Function.uncurry (fun (_ : Nat) (a : α) => f a) = f ∘ Prod.snd from rfl]
  rw [← List.map_map, List.enum_map_snd]

theorem mapIdx_map_proj {α β γ : Type} (f : Nat → α → β) (g : β → γ) (h : α → γ)
    (hc : ∀ i a, g (f i a) = h a) (l : List α) : (l.mapIdx f).map g = l.map h := by
  rw [map_mapIdx]
  have he : (fun (i : Nat) (a : α) => g (f i a)) = fun _ a => h a := by
    funext i a
    exact hc i a
  rw [he, mapIdx_constIdx]

theorem zip_map_fst_eq {α β γ : Type} (l₁ : List α) (l₂ : List β) (f : α → γ)
    (h : l₁.length ≤ l₂.length) : (l₁.zip l₂).map (fun p => f p.1) = l₁.map f := by
  conv_rhs => rw [← List.map_fst_zip l₁ l₂ h]
  rw [List.map_map]
  rfl

theorem zip_map_snd_eq {α β γ : Type} (l₁ : List α) (l₂ : List β) (f : β → γ)
    (h : l₂.length ≤ l₁.length) : (l₁.zip l₂).map (fun p => f p.2) = l₂.map f := by
  conv_rhs => rw [← List.map_snd_zip l₁ l₂ h]
  rw [List.map_map]
  rfl

theorem zip_flatMap_fst_eq {α β γ : Type} (l₁ : List α) (l₂ : List β) (f : α → List γ)
    (h : l₁.length ≤ l₂.length) :
    (l₁.zip l₂).flatMap (fun p => f p.1) = l₁.flatMap f := by
  conv_rhs => rw [← List.map_fst_zip l₁ l₂ h]
  rw [List.flatMap_map]

theorem zip_eq_take_zip {α β : Type} :
    ∀ (l₁ : List α) (l₂ : List β), l₁.zip l₂ = (l₁.take l₂.length).zip l₂ := by
  intro l₁
  induction l₁ with
  | nil => intro l₂; simp
  | cons a t ih =>
    intro l₂
    cases l₂ with
    | nil => simp
    | cons b t₂ => simp [List.zip_cons_cons, ih t₂]

theorem sum_map_commit (pg : PedersenGens) (l : List RevealedCommitment) :
    (l.map (RevealedCommitment.commit pg)).sum =
      (((l.map RevealedCommitment.value).sum : Nat) : Scalar) * pg.gv +
        (l.map RevealedCommitment.blinding).sum * pg.gb := by
  induction l with
  | nil => simp
  | cons a t ih =>
    simp only [List.map_cons, List.sum_cons, ih, RevealedCommitment.commit,
      PedersenGens.commitPt]
    push_cast
    ring

theorem rps_length (m : RingCtMaterial) (rng : Rng) :
    (m.revealed_pseudo_commitments rng).length = m.inputs.length := by
  simp [RingCtMaterial.revealed_pseudo_commitments]

theorem rps_map_value (m : RingCtMaterial) (rng : Rng) :
    (m.revealed_pseudo_commitments rng).map RevealedCommitment.value =
      m.inputs.map fun i => i.true_input.revealed_commitment.value := by
  unfold RingCtMaterial.revealed_pseudo_commitments
  apply mapIdx_map_proj
  intro i a
  rfl

theorem rocFirsts_map_value (m : RingCtMaterial) (rng : Rng) (off : Nat) :
    ((rocFirsts m rng off).map fun r => r.revealed_commitment.value) =
      (m.outputs.take (m.outputs.length - 1)).map Output.amount := by
  unfold rocFirsts
  apply mapIdx_map_proj
  intro i a
  rfl

theorem rocFirsts_map_pk (m : RingCtMaterial) (rng : Rng) (off : Nat) :
    ((rocFirsts m rng off).map RevealedOutputCommitment.public_key) =
      (m.outputs.take (m.outputs.length - 1)).map Output.public_key := by
  unfold rocFirsts
  apply mapIdx_map_proj
  intro i a
  rfl

theorem roc_spec (m : RingCtMaterial) (rps : List RevealedCommitment) (rng : Rng)
    (off : Nat) (last_output : Output) (h : m.outputs.getLast? = some last_output) :
    m.revealed_output_commitments rps rng off =
      some ((rocFirsts m rng off) ++
        [{ public_key := last_output.public_key,
           revealed_commitment :=
             { value := last_output.amount,
               blinding := (rps.map RevealedCommitment.blinding).sum -
                 ((rocFirsts m rng off).map fun r => r.revealed_commitment.blinding).sum } }]) := by
  have hne : m.outputs ≠ [] := by
    intro he
    rw [he] at h
    simp at h
  unfold RingCtMaterial.revealed_output_commitments
  rw [h]
  simp [List.isEmpty_eq_false.mpr hne, foldl_add_eq_sum]

theorem roc_ne_none (m : RingCtMaterial) (rps : List RevealedCommitment) (rng : Rng)
    (off : Nat) : m.revealed_output_commitments rps rng off ≠ none := by
  cases ho : m.outputs.getLast? with
  | none =>
    have he : m.outputs = [] := List.getLast?_eq_none_iff.mp ho
    unfold RingCtMaterial.revealed_output_commitments
    simp [he]
  | some last_output =>
    rw [roc_spec m rps rng off last_output ho]
    simp

/-- The output proof the modelled prover builds for one revealed output
commitment: its commitment is the Pedersen commitment of the revealed pair. -/
def mkOutputProof (pg : PedersenGens) (c : RevealedOutputCommitment) : OutputProof :=
  { public_key := c.public_key
    range_proof :=
      { bytes := ptBytes (pg.commitPt c.revealed_commitment.value c.revealed_commitment.blinding)
        check := fun _ _ => true }
    commitment := pg.commitPt c.revealed_commitment.value c.revealed_commitment.blinding }

theorem outputRangeProofsGo_eq (pg : PedersenGens) :
    ∀ (ts : List Nat) (l : List RevealedOutputCommitment),
      outputRangeProofsGo pg ts l = .ok (l.map (mkOutputProof pg)) := by
  intro ts l
  induction l generalizing ts with
  | nil => rfl
  | cons c t ih => simp [outputRangeProofsGo, proveSingle, ih, mkOutputProof]

theorem output_range_proofs_eq (pg : PedersenGens) (l : List RevealedOutputCommitment) :
    output_range_proofs pg l = .ok (l.map (mkOutputProof pg)) :=
  outputRangeProofsGo_eq pg merlinLabel l

/-- The message `RingCtMaterial::sign` signs, expressed from the material and
the revealed output commitments. -/
def signMsg (m : RingCtMaterial) (pg : PedersenGens) (rng : Rng)
    (rocs : List RevealedOutputCommitment) : List Nat :=
  gen_message_for_signing m.public_keys m.key_images
    (pseudo_commitments pg (m.revealed_pseudo_commitments rng))
    (rocs.map (mkOutputProof pg))

theorem sign_eq_ok (m : RingCtMaterial) (pg : PedersenGens) (rng : Rng)
    (rocs : List RevealedOutputCommitment)
    (hroc : m.revealed_output_commitments (m.revealed_pseudo_commitments rng) rng
      m.inputs.length = some rocs) :
    m.sign pg rng = some (.ok (
      { mlsags := (m.inputs.zip (m.revealed_pseudo_commitments rng)).map fun p =>
          p.1.sign (signMsg m pg rng rocs) p.2 pg
        outputs := rocs.map (mkOutputProof pg) },
      rocs.map fun r => r.revealed_commitment)) := by
  unfold RingCtMaterial.sign
  simp only [hroc, output_range_proofs_eq, signMsg]

/-! ### Claim C9 -/

/-- C9: `RingCtMaterial::sign` never terminates the process on any input: the
`panic!("Expected at least one output")` branch of
`revealed_output_commitments` (modelled as `none`) is unreachable, because
empty `outputs` returns the empty list before reaching it and non-empty
`outputs` always has a last element. -/
theorem sign_never_panics (pg : PedersenGens) (m : RingCtMaterial) (rng : Rng) :
    (m.sign pg rng).isSome = true := by
  cases hroc : m.revealed_output_commitments (m.revealed_pseudo_commitments rng) rng
      m.inputs.length with
  | none => exact absurd hroc (roc_ne_none m (m.revealed_pseudo_commitments rng) rng m.inputs.length)
  | some rocs =>
    rw [sign_eq_ok m pg rng rocs hroc]
    rfl

/-! ### Claim C1 -/

/-- C1 (counterexample to the claim as stated): for the concrete material with
one input and no outputs, `sign` does not fail with `NoOutputs`; it returns a
transaction. -/
theorem sign_empty_outputs_no_error :
    isErrorOf Error.NoOutputs (matNoOutputs.sign pg0 rng0) = false ∧
      signOk (matNoOutputs.sign pg0 rng0) = true := by
  decide

/-- C1 (amended): for every material with empty `outputs` and every RNG,
`sign` succeeds and returns a transaction with no output proofs together with
an empty revealed-commitment list; it does not fail with `NoOutputs` (no
emptiness check exists in `RingCtMaterial::sign`). -/
theorem sign_empty_outputs_ok (pg : PedersenGens) (m : RingCtMaterial) (rng : Rng)
    (h : m.outputs = []) :
    signOk (m.sign pg rng) = true ∧ (signedTxOf (m.sign pg rng)).outputs = [] ∧
      revealedOf (m.sign pg rng) = [] := by
  have hroc : m.revealed_output_commitments (m.revealed_pseudo_commitments rng) rng
      m.inputs.length = some [] := by
    unfold RingCtMaterial.revealed_output_commitments
    simp [h]
  rw [sign_eq_ok m pg rng [] hroc]
  exact ⟨rfl, rfl, rfl⟩

/-- C1 witness: the amended statement evaluated at the concrete no-output
material. -/
theorem sign_empty_outputs_ok_witness :
    signOk (matNoOutputs.sign pg0 rng0) = true ∧
      (signedTxOf (matNoOutputs.sign pg0 rng0)).outputs = [] ∧
      revealedOf (matNoOutputs.sign pg0 rng0) = [] :=
  sign_empty_outputs_ok pg0 matNoOutputs rng0 rfl

/-! ### Claim C2 -/

/-- C2 (counterexample to the claim as stated): for the concrete material with
no inputs and one output, `sign` does not fail with `NoInputs`; it returns a
transaction. -/
theorem sign_empty_inputs_no_error :
    isErrorOf Error.NoInputs (matNoInputs.sign pg0 rng0) = false ∧
      signOk (matNoInputs.sign pg0 rng0) = true := by
  decide

/-- C2 (amended): for every material with empty `inputs` and every RNG,
`sign` succeeds and returns a zero-input transaction (its `mlsags` list is
empty); it does not fail with `NoInputs` (no emptiness check exists in
`RingCtMaterial::sign`). -/
theorem sign_empty_inputs_ok (pg : PedersenGens) (m : RingCtMaterial) (rng : Rng)
    (h : m.inputs = []) :
    signOk (m.sign pg rng) = true ∧ (signedTxOf (m.sign pg rng)).mlsags = [] := by
  cases hroc : m.revealed_output_commitments (m.revealed_pseudo_commitments rng) rng
      m.inputs.length with
  | none => exact absurd hroc (roc_ne_none m (m.revealed_pseudo_commitments rng) rng m.inputs.length)
  | some rocs =>
    rw [sign_eq_ok m pg rng rocs hroc]
    refine ⟨rfl, ?_⟩
    simp [signedTxOf, h]

/-- C2 witness: the amended statement evaluated at the concrete no-input
material. -/
theorem sign_empty_inputs_ok_witness :
    signOk (matNoInputs.sign pg0 rng0) = true ∧
      (signedTxOf (matNoInputs.sign pg0 rng0)).mlsags = [] :=
  sign_empty_inputs_ok pg0 matNoInputs rng0 rfl

theorem mlsags_map_pseudo (m : RingCtMaterial) (pg : PedersenGens) (rng : Rng)
    (msg : List Nat) :
    (((m.inputs.zip (m.revealed_pseudo_commitments rng)).map fun p =>
        p.1.sign msg p.2 pg).map MlsagSignature.pseudo_commitment) =
      (m.revealed_pseudo_commitments rng).map (RevealedCommitment.commit pg) := by
  rw [List.map_map]
  exact zip_map_snd_eq m.inputs (m.revealed_pseudo_commitments rng)
    (RevealedCommitment.commit pg) (le_of_eq (rps_length m rng))

theorem mlsags_map_key_image (m : RingCtMaterial) (pg : PedersenGens) (rng : Rng)
    (msg : List Nat) :
    (((m.inputs.zip (m.revealed_pseudo_commitments rng)).map fun p =>
        p.1.sign msg p.2 pg).map MlsagSignature.key_image) = m.key_images := by
  rw [List.map_map]
  exact zip_map_fst_eq m.inputs (m.revealed_pseudo_commitments rng)
    (fun i => i.true_input.key_image) (le_of_eq (rps_length m rng).symm)

theorem mlsags_flatMap_pk (m : RingCtMaterial) (pg : PedersenGens) (rng : Rng)
    (msg : List Nat) :
    (((m.inputs.zip (m.revealed_pseudo_commitments rng)).map fun p =>
        p.1.sign msg p.2 pg).flatMap MlsagSignature.public_keys) = m.public_keys := by
  rw [List.flatMap_map]
  exact zip_flatMap_fst_eq m.inputs (m.revealed_pseudo_commitments rng)
    MlsagMaterial.public_keys (le_of_eq (rps_length m rng).symm)

theorem sum_map_mkOutputProof (pg : PedersenGens) (l : List RevealedOutputCommitment) :
    ((l.map (mkOutputProof pg)).map OutputProof.commitment).sum =
      (((l.map fun r => r.revealed_commitment.value).sum : Nat) : Scalar) * pg.gv +
        (l.map fun r => r.revealed_commitment.blinding).sum * pg.gb := by
  induction l with
  | nil => simp
  | cons a t ih =>
    simp only [List.map_cons, List.sum_cons, ih, mkOutputProof, PedersenGens.commitPt]
    push_cast
    ring

/-! ### Claim C4 -/

/-- C4: for every material with at least one output, the revealed output
commitments built during signing give the last output the blinding
`Σ pseudo-commitment blindings − Σ blindings of the earlier outputs` (exact
scalar-field arithmetic) and the last output's declared amount as value;
consequently the sum of all output blindings equals the sum of all
pseudo-commitment blindings. -/
theorem revealed_output_commitments_last (m : RingCtMaterial)
    (rps : List RevealedCommitment) (rng : Rng) (off : Nat)
    (l : List RevealedOutputCommitment) (last_output : Output)
    (hlast : m.outputs.getLast? = some last_output)
    (hroc : m.revealed_output_commitments rps rng off = some l) :
    l.getLast? = some
      { public_key := last_output.public_key,
        revealed_commitment :=
          { value := last_output.amount,
            blinding := (rps.map RevealedCommitment.blinding).sum -
              (l.dropLast.map fun r => r.revealed_commitment.blinding).sum } } ∧
    (l.map fun r => r.revealed_commitment.blinding).sum =
      (rps.map RevealedCommitment.blinding).sum := by
  rw [roc_spec m rps rng off last_output hlast, Option.some.injEq] at hroc
  subst hroc
  constructor
  · rw [List.dropLast_concat, List.getLast?_concat]
  · rw [List.map_append, List.sum_append]
    simp only [List.map_cons, List.map_nil, List.sum_cons, List.sum_nil, add_zero]
    ring

/-- Extract a revealed-output-commitment list from an `Option` (used only to
name a concrete witness value). -/
def rocsOf (r : Option (List RevealedOutputCommitment)) : List RevealedOutputCommitment :=
  r.getD []

/-- C4 witness: the blinding-balance consequence evaluated on the concrete
balanced material. -/
theorem revealed_output_commitments_last_witness :
    ((rocsOf (mat1.revealed_output_commitments (mat1.revealed_pseudo_commitments rng0) rng0
        mat1.inputs.length)).map fun r => r.revealed_commitment.blinding).sum =
      ((mat1.revealed_pseudo_commitments rng0).map RevealedCommitment.blinding).sum :=
  (revealed_output_commitments_last mat1 (mat1.revealed_pseudo_commitments rng0) rng0
    mat1.inputs.length
    (rocsOf (mat1.revealed_output_commitments (mat1.revealed_pseudo_commitments rng0) rng0
      mat1.inputs.length))
    { public_key := 9, amount := 3 } rfl rfl).2

/-! ### Claim C3 -/

/-- C3 (counterexample to the claim as stated): the concrete material with one
zero-valued input and no outputs has equal input and output amount sums (both
0), yet the signed transaction's pseudo-commitment sum differs from its (empty)
output-commitment sum: the correction blinding is only ever applied to a last
output, so with no outputs the input blinding is uncompensated. -/
theorem commitment_balance_cex :
    signOk (matZero.sign pg0 rng0) = true ∧
      ((matZero.inputs.map fun i => i.true_input.revealed_commitment.value).sum =
        (matZero.outputs.map Output.amount).sum) ∧
      ((signedTxOf (matZero.sign pg0 rng0)).mlsags.map MlsagSignature.pseudo_commitment).sum ≠
        ((signedTxOf (matZero.sign pg0 rng0)).outputs.map OutputProof.commitment).sum := by
  decide

/-- C3 (amended: the material must have at least one output): for every
material with equal input and output amount sums and at least one output (the
per-input pseudo-commitments commit to the true input amounts by
construction), the transaction returned by `sign` satisfies
`Σ pseudo-commitments = Σ output commitments` as group elements. -/
theorem commitment_balance (pg : PedersenGens) (m : RingCtMaterial) (rng : Rng)
    (tx : RingCtTransaction) (rcs : List RevealedCommitment)
    (hsign : m.sign pg rng = some (.ok (tx, rcs)))
    (hne : m.outputs ≠ [])
    (hsum : (m.inputs.map fun i => i.true_input.revealed_commitment.value).sum =
      (m.outputs.map Output.amount).sum) :
    (tx.mlsags.map MlsagSignature.pseudo_commitment).sum =
      (tx.outputs.map OutputProof.commitment).sum := by
  have hlast : m.outputs.getLast? = some (m.outputs.getLast hne) :=
    List.getLast?_eq_getLast _ hne
  have hroc := roc_spec m (m.revealed_pseudo_commitments rng) rng m.inputs.length
    (m.outputs.getLast hne) hlast
  have h2 := (sign_eq_ok m pg rng _ hroc).symm.trans hsign
  simp only [Option.some.injEq, Except.ok.injEq, Prod.mk.injEq] at h2
  obtain ⟨htx, -⟩ := h2
  subst htx
  dsimp only
  rw [mlsags_map_pseudo m pg rng, sum_map_commit, sum_map_mkOutputProof]
  rw [List.map_append, List.map_append, List.sum_append, List.sum_append]
  simp only [List.map_cons, List.map_nil, List.sum_cons, List.sum_nil, add_zero]
  rw [rocFirsts_map_value, rps_map_value, hsum]
  have houts : (m.outputs.map Output.amount).sum =
      ((m.outputs.take (m.outputs.length - 1)).map Output.amount).sum +
        (m.outputs.getLast hne).amount := by
    conv_lhs => rw [← List.dropLast_append_getLast hne]
    rw [List.map_append, List.sum_append, List.dropLast_eq_take]
    simp
  rw [houts]
  push_cast
  ring

/-- C3 witness: the amended balance statement evaluated on the concrete
balanced material (one input of amount 3, one output of amount 3). -/
theorem commitment_balance_witness :
    ((signedTxOf (mat1.sign pg0 rng0)).mlsags.map MlsagSignature.pseudo_commitment).sum =
      ((signedTxOf (mat1.sign pg0 rng0)).outputs.map OutputProof.commitment).sum :=
  commitment_balance pg0 mat1 rng0 (signedTxOf (mat1.sign pg0 rng0))
    (revealedOf (mat1.sign pg0 rng0)) rfl (by decide) (by decide)

/-! ### Claim C5 -/

/-- C5: for every material and RNG for which `sign` succeeds, the message
passed to each input's MLSAG `sign` call (which is
`gen_message_for_signing` over the material's public keys, key images,
pseudo-commitments and the produced output proofs) is byte-for-byte equal to
`gen_message()` of the returned transaction; the modelled `MlsagSignature`
reports the ring public keys, key image and pseudo-commitment of the material
it was produced from, as the claim assumes. -/
theorem sign_message_agreement (pg : PedersenGens) (m : RingCtMaterial) (rng : Rng)
    (tx : RingCtTransaction) (rcs : List RevealedCommitment)
    (hsign : m.sign pg rng = some (.ok (tx, rcs))) :
    tx.gen_message = gen_message_for_signing m.public_keys m.key_images
      (pseudo_commitments pg (m.revealed_pseudo_commitments rng)) tx.outputs := by
  cases hroc : m.revealed_output_commitments (m.revealed_pseudo_commitments rng) rng
      m.inputs.length with
  | none => exact absurd hroc (roc_ne_none m (m.revealed_pseudo_commitments rng) rng m.inputs.length)
  | some rocs =>
    have h2 := (sign_eq_ok m pg rng rocs hroc).symm.trans hsign
    simp only [Option.some.injEq, Except.ok.injEq, Prod.mk.injEq] at h2
    obtain ⟨htx, -⟩ := h2
    subst htx
    unfold RingCtTransaction.gen_message
    dsimp only
    rw [mlsags_flatMap_pk, mlsags_map_key_image, mlsags_map_pseudo]
    rfl

/-- C5 witness: message agreement evaluated on the concrete balanced
material. -/
theorem sign_message_agreement_witness :
    (signedTxOf (mat1.sign pg0 rng0)).gen_message =
      gen_message_for_signing mat1.public_keys mat1.key_images
        (pseudo_commitments pg0 (mat1.revealed_pseudo_commitments rng0))
        (signedTxOf (mat1.sign pg0 rng0)).outputs :=
  sign_message_agreement pg0 mat1 rng0 (signedTxOf (mat1.sign pg0 rng0))
    (revealedOf (mat1.sign pg0 rng0)) rfl

/-! ### Claim C6 -/

/-- C6: for every transaction, `gen_message()` is exactly the concatenation,
with no separators or length fields, of: the compressed encodings of every
ring public key of every input in order (each ring in its own order), then
every input's compressed key image in input order, then every input's
compressed pseudo-commitment in input order, then every output proof's
canonical bytes in output order — and every compressed point encoding is
exactly 48 bytes. -/
theorem gen_message_bytes :
    (∀ tx : RingCtTransaction,
      tx.gen_message =
        tx.mlsags.flatMap (fun s => s.public_keys.flatMap ptBytes) ++
          tx.mlsags.flatMap (fun s => ptBytes s.key_image) ++
          tx.mlsags.flatMap (fun s => ptBytes s.pseudo_commitment) ++
          tx.outputs.flatMap OutputProof.to_bytes) ∧
    ∀ p : G1Affine, (ptBytes p).length = 48 := by
  constructor
  · intro tx
    unfold RingCtTransaction.gen_message gen_message_for_signing
    rw [List.flatMap_assoc, List.flatMap_map, List.flatMap_map]
  · exact ptBytes_length

/-! ### Claim C8 -/

/-- C8: for every transaction, `hash()` equals the SHA3-256 digest applied to
`to_bytes()`; `to_bytes()` is the concatenation of each mlsag's canonical
bytes in order followed by each output proof's canonical bytes in order; and
`hash()` is a deterministic function of `to_bytes()`. -/
theorem hash_spec :
    (∀ (digest : List Nat → List Nat) (tx : RingCtTransaction),
        tx.hash digest = digest tx.to_bytes) ∧
    (∀ tx : RingCtTransaction,
        tx.to_bytes = tx.mlsags.flatMap MlsagSignature.to_bytes ++
          tx.outputs.flatMap OutputProof.to_bytes) ∧
    (∀ (digest : List Nat → List Nat) (tx tx2 : RingCtTransaction),
        tx.to_bytes = tx2.to_bytes → tx.hash digest = tx2.hash digest) := by
  refine ⟨?_, ?_, ?_⟩
  · intro digest tx
    unfold RingCtTransaction.hash Sha3.finalize Sha3.update Sha3.v256
    rw [List.nil_append]
  · intro tx
    rfl
  · intro digest tx tx2 h
    unfold RingCtTransaction.hash Sha3.finalize Sha3.update Sha3.v256
    rw [h]

/-- Concrete digest stand-in used by the C8 witness. -/
def digest0 : List Nat → List Nat := fun l => [l.length]

/-- C8 witness: the digest equation and determinism evaluated on the concrete
signed transaction. -/
theorem hash_spec_witness :
    RingCtTransaction.hash digest0 (signedTxOf (mat1.sign pg0 rng0)) =
        digest0 (RingCtTransaction.to_bytes (signedTxOf (mat1.sign pg0 rng0))) ∧
      RingCtTransaction.hash digest0 (signedTxOf (mat1.sign pg0 rng0)) =
        RingCtTransaction.hash digest0 (signedTxOf (mat1.sign pg0 rng0)) :=
  ⟨hash_spec.1 digest0 (signedTxOf (mat1.sign pg0 rng0)),
    hash_spec.2.2 digest0 (signedTxOf (mat1.sign pg0 rng0))
      (signedTxOf (mat1.sign pg0 rng0)) rfl⟩

/-! ### Claim C10 -/

/-- Concrete mlsag whose verification function accepts everything. -/
def msA : MlsagSignature :=
  { public_keys := [10], key_image := 5, pseudo_commitment := 1, to_bytes := []
    verify := fun _ _ => true }

/-- Concrete mlsag whose verification function rejects everything; its
pseudo-commitment is the negation of `msA`'s, so the two balance an
output-free transaction. -/
def msB : MlsagSignature :=
  { public_keys := [11], key_image := 6, pseudo_commitment := -1, to_bytes := []
    verify := fun _ _ => false }

/-- Concrete two-input transaction for the verifier truncation claim. -/
def tx10 : RingCtTransaction := { mlsags := [msA, msB], outputs := [] }

/-- One ring-commitment list for a two-mlsag transaction. -/
def pcs10 : List (List G1Affine) := [[12]]

/-- C10: when `verify` is given fewer per-ring commitment lists than the
transaction has mlsags, the zip truncates, so MLSAG verification runs only
for the first `|public_commitments_per_ring|` mlsags and no length-mismatch
error exists; concretely, `tx10` has two mlsags, its last mlsag rejects every
(message, ring) pair, yet `verify` with a single commitment list returns
`Ok`. -/
theorem verify_truncates_mlsag_checks :
    (∀ (msg : List Nat) (mlsags : List MlsagSignature) (pcs : List (List G1Affine)),
        mlsagChecks msg (mlsags.zip pcs) =
          mlsagChecks msg ((mlsags.take pcs.length).zip pcs)) ∧
    (∀ (msg : List Nat) (pc : List G1Affine), msB.verify msg pc = false) ∧
    pcs10.length < tx10.mlsags.length ∧
    tx10.mlsags.getLast? = some msB ∧
    tx10.verify pcs10 = .ok () := by
  refine ⟨?_, ?_, ?_, ?_, ?_⟩
  · intro msg mlsags pcs
    rw [← zip_eq_take_zip]
  · intro msg pc
    rfl
  · decide
  · rfl
  · rfl

/-! ### Claim C7 -/

theorem dedup_length_eq_iff_nodup {α : Type} [DecidableEq α] (l : List α) :
    l.dedup.length = l.length ↔ l.Nodup := by
  constructor
  · intro h
    have hs : l.dedup = l := (List.dedup_sublist l).eq_of_length h
    rw [← hs]
    exact List.nodup_dedup l
  · intro h
    rw [List.dedup_eq_self.mpr h]

/-- C7: for every transaction whose MLSAG and range-proof checks pass and
which has at least one input, `verify` returns
`KeyImageNotUniqueAcrossInputs` if and only if two distinct mlsags have equal
48-byte compressed key images; the embedded check compares the cardinality of
the set of compressed bytes (the length of `dedup`) with the number of
mlsags, exactly as the source's `BTreeSet` does. -/
theorem verify_keyimage_uniqueness (tx : RingCtTransaction)
    (pcs : List (List G1Affine))
    (hm : mlsagChecks tx.gen_message (tx.mlsags.zip pcs) = .ok ())
    (hr : rangeChecks merlinLabel tx.outputs = .ok ())
    (hne : tx.mlsags ≠ []) :
    tx.verify pcs = .error Error.KeyImageNotUniqueAcrossInputs ↔
      ∃ i j, i < j ∧ j < tx.mlsags.length ∧
        (tx.mlsags.map fun s => ptBytes s.key_image).get? i =
          (tx.mlsags.map fun s => ptBytes s.key_image).get? j := by
  have hv : tx.verify pcs = structuralChecks tx := by
    unfold RingCtTransaction.verify
    rw [hm, hr]
  rw [hv]
  unfold structuralChecks
  rw [if_neg (by simp [List.isEmpty_eq_false.mpr hne])]
  have hlen : (tx.mlsags.map fun s => ptBytes s.key_image).length = tx.mlsags.length :=
    List.length_map _ _
  by_cases hc : (tx.mlsags.map fun s => ptBytes s.key_image).dedup.length = tx.mlsags.length
  · rw [if_neg (fun hh => hh hc)]
    have hnodup : (tx.mlsags.map fun s => ptBytes s.key_image).Nodup := by
      rw [← hlen] at hc
      exact (dedup_length_eq_iff_nodup _).mp hc
    constructor
    · intro habs
      exfalso
      by_cases h1 : (tx.mlsags.flatMap fun s => s.public_keys.map ptBytes).dedup.length =
          (tx.mlsags.map fun s => s.public_keys.length).sum
      · rw [if_neg (fun hh => hh h1)] at habs
        by_cases h2 : (tx.mlsags.map MlsagSignature.pseudo_commitment).sum =
            (tx.outputs.map OutputProof.commitment).sum
        · rw [if_neg (fun hh => hh h2)] at habs
          exact Except.noConfusion habs
        · rw [if_pos h2] at habs
          injection habs with h3
          exact Error.noConfusion h3
      · rw [if_pos h1] at habs
        injection habs with h3
        exact Error.noConfusion h3
    · rintro ⟨i, j, hij, hjlen, hget⟩
      exfalso
      rw [List.nodup_iff_get?_ne_get?] at hnodup
      exact hnodup i j hij (by rw [hlen]; exact hjlen) hget
  · rw [if_pos hc]
    constructor
    · intro _
      have hnd : ¬ (tx.mlsags.map fun s => ptBytes s.key_image).Nodup := by
        intro hnd
        exact hc (((dedup_length_eq_iff_nodup _).mpr hnd).trans hlen)
      rw [List.nodup_iff_get?_ne_get?] at hnd
      push_neg at hnd
      obtain ⟨i, j, hij, hjl, hget⟩ := hnd
      exact ⟨i, j, hij, by rw [← hlen]; exact hjl, hget⟩
    · intro _
      rfl

/-- Concrete mlsag sharing `msA`'s key image but with a distinct ring key. -/
def msC : MlsagSignature :=
  { public_keys := [13], key_image := 5, pseudo_commitment := 2, to_bytes := []
    verify := fun _ _ => true }

/-- Concrete transaction with two mlsags whose key images collide. -/
def txDup : RingCtTransaction := { mlsags := [msA, msC], outputs := [] }

/-- C7 witness: with an empty commitment-list argument the MLSAG loop is
empty and with no outputs the range loop is empty, so the duplicate key
images of `txDup` make `verify` return `KeyImageNotUniqueAcrossInputs`. -/
theorem verify_keyimage_uniqueness_witness :
    txDup.verify [] = .error Error.KeyImageNotUniqueAcrossInputs :=
  (verify_keyimage_uniqueness txDup [] rfl rfl (fun h => List.noConfusion h)).mpr
    ⟨0, 1, by decide, by decide, by decide⟩
